import Mathlib

/-!
Verification of the latency-measurement controller of `latency_test.py`
(jack_delay GUI).

The development shallowly embeds the parts of the source the claims are
about:

* the output parser of `handle_latency_output` (lines 154-191): Python
  `str.splitlines`, the two regular expressions
  `\d+\.\d+\s+ms` and `(\d+\.\d+)\s+frames\s+(\d+\.\d+)\s+ms`, and the
  `latency_waiting_for_connection` flag;
* IEEE-754 binary64 arithmetic as exact rationals rounded to 53 bits
  (`fpRound`), used by `float(...)`, `sum(...)` and `/` in
  `handle_latency_finished` (lines 216-224) and by `f"{x:.3f}"`
  (`fmt3`);
* the controller state (process handle, sample list, flags, result text)
  and the handlers `run_latency_test`, `stop_latency_test`,
  `handle_latency_finished`;
* the JACK graph interaction of `_attempt_latency_auto_connection`
  (lines 443-484) and `make_connection` (lines 488-506), with explicit
  failure oracles for the operations that may raise `jack.JackError`,
  and `_on_port_registered` (lines 533-547).

Characters are handled as ASCII, matching the output of the measurement
tool; text is modelled as `List Char`.
-/

/-! ## Character classes and low-level scanning -/

/-- Python regex `\d` (ASCII). -/
def isDigitC (c : Char) : Bool := '0' ≤ c && c ≤ '9'

/-- Python regex `\s` (ASCII portion: space, tab, newline, carriage
return, vertical tab, form feed). -/
def isSpaceC (c : Char) : Bool :=
  c = ' ' || c = '\t' || c = '\n' || c = '\r' || c = '\x0b' || c = '\x0c'

/-- Line-terminator characters recognised by Python `str.splitlines`. -/
def isLineBreak (c : Char) : Bool :=
  c = '\n' || c = '\r' || c = '\x0b' || c = '\x0c' ||
  c = '\x1c' || c = '\x1d' || c = '\x1e' || c = '\x85' ||
  c = '\u2028' || c = '\u2029'

/-- Split a list at the longest prefix whose characters satisfy `p`
(the classic span). -/
def spanP (p : Char → Bool) : List Char → List Char × List Char
  | [] => ([], [])
  | c :: r =>
    if p c then
      let s := spanP p r
      (c :: s.1, s.2)
    else ([], c :: r)

/-- Require a non-empty run of characters satisfying `p` (a greedy
`+`-quantified character class); return it and the rest. -/
def expectRun (p : Char → Bool) (s : List Char) : Option (List Char × List Char) :=
  match spanP p s with
  | ([], _) => none
  | (d, r) => some (d, r)

/-- Require a non-empty run of digits (`\d+`). -/
def expectDigits (s : List Char) : Option (List Char × List Char) :=
  expectRun isDigitC s

/-- Require a non-empty run of whitespace (`\s+`). -/
def expectSpaces (s : List Char) : Option (List Char × List Char) :=
  expectRun isSpaceC s

/-- Require the given character at the head; return the tail. -/
def expectChar (c : Char) : List Char → Option (List Char)
  | [] => none
  | x :: r => if x = c then some r else none

/-- Require the given literal word as a prefix; return the rest. -/
def expectLit : List Char → List Char → Option (List Char)
  | [], s => some s
  | _ :: _, [] => none
  | c :: w, x :: r => if x = c then expectLit w r else none

/-! ## The two regular expressions of `handle_latency_output`

`re.search(r'\d+\.\d+\s+ms', data)` (line 171) and
`re.search(r'(\d+\.\d+)\s+frames\s+(\d+\.\d+)\s+ms', line)` (line 183).
Both patterns alternate runs from disjoint character classes with fixed
literals, so greedy matching at a position is deterministic and
`re.search` is the scan for the leftmost position that matches. -/

/-- Match `(\d+\.\d+)\s+ms` at the start; on success return the integer
and fractional digit runs of the captured decimal and the rest. -/
def matchMsCapAt (s : List Char) : Option ((List Char × List Char) × List Char) :=
  (expectDigits s).bind fun q1 =>
  (expectChar '.' q1.2).bind fun r2 =>
  (expectDigits r2).bind fun q2 =>
  (expectSpaces q2.2).bind fun q3 =>
  (expectLit ['m', 's'] q3.2).map fun r5 => ((q1.1, q2.1), r5)

/-- Match `\d+\.\d+\s+ms` at the start of the text. -/
def matchMsAt (s : List Char) : Bool := (matchMsCapAt s).isSome

/-- `re.search(r'\d+\.\d+\s+ms', data)` — does any position match? -/
def searchMs : List Char → Bool
  | [] => false
  | c :: r => matchMsAt (c :: r) || searchMs r

/-- Match `(\d+\.\d+)\s+frames\s+(\d+\.\d+)\s+ms` at the start; return
both captures as (integer digits, fractional digits) pairs. -/
def matchSampleAt (s : List Char) :
    Option ((List Char × List Char) × (List Char × List Char)) :=
  (expectDigits s).bind fun q1 =>
  (expectChar '.' q1.2).bind fun r2 =>
  (expectDigits r2).bind fun q2 =>
  (expectSpaces q2.2).bind fun q3 =>
  (expectLit ['f', 'r', 'a', 'm', 'e', 's'] q3.2).bind fun r5 =>
  (expectSpaces r5).bind fun q4 =>
  (matchMsCapAt q4.2).map fun c2 => ((q1.1, q2.1), c2.1)

/-- `re.search` with the sample pattern: leftmost matching position. -/
def searchSampleCap : List Char →
    Option ((List Char × List Char) × (List Char × List Char))
  | [] => none
  | c :: r =>
    match matchSampleAt (c :: r) with
    | some g => some g
    | none => searchSampleCap r

/-- Python `str.splitlines` (line 181 `data.splitlines()`): split on the
line terminators, `\r\n` counting as one; no trailing empty line. -/
def splitlines : List Char → List (List Char)
  | [] => []
  | '\r' :: '\n' :: rest => [] :: splitlines rest
  | '\r' :: [] => [[]]
  | '\r' :: d :: rest => [] :: splitlines (d :: rest)
  | c :: rest =>
    if isLineBreak c then [] :: splitlines rest
    else
      match splitlines rest with
      | [] => [[c]]
      | l :: ls => (c :: l) :: ls

/-! ## IEEE-754 binary64 values as exact rationals

Python floats are IEEE-754 binary64. A finite normal double is a
rational; `fpRound` maps an exact rational result to the nearest double
(ties to even), which is exactly what each Python float operation does
to its exact value. The binade scan covers the full normal range of
binary64; all values in this development are normal. -/

/-- Exact rational multiplication spelled out on numerator and
denominator, so that proofs can evaluate it (the library's rational
arithmetic is irreducible by design). -/
def qMul (a b : ℚ) : ℚ := mkRat (a.num * b.num) (a.den * b.den)

/-- Exact rational addition (see `qMul`). -/
def qAdd (a b : ℚ) : ℚ :=
  mkRat (a.num * Int.ofNat b.den + b.num * Int.ofNat a.den) (a.den * b.den)

/-- Exact rational subtraction (see `qMul`). -/
def qSub (a b : ℚ) : ℚ :=
  mkRat (a.num * Int.ofNat b.den - b.num * Int.ofNat a.den) (a.den * b.den)

/-- Exact rational negation (see `qMul`). -/
def qNeg (a : ℚ) : ℚ := mkRat (- a.num) a.den

/-- Exact rational division (see `qMul`); division by zero yields 0. -/
def qDiv (a b : ℚ) : ℚ :=
  let n := a.num * Int.ofNat b.den
  let d := Int.ofNat a.den * b.num
  if 0 ≤ d then mkRat n d.toNat else mkRat (- n) (- d).toNat

/-- Two to an integer power, as a rational (core operations, so that
proofs can evaluate it). -/
def qpow2 (e : ℤ) : ℚ :=
  if 0 ≤ e then mkRat (Int.ofNat (Nat.pow 2 e.toNat)) 1
  else mkRat 1 (Nat.pow 2 (-e).toNat)

/-- Floor of the base-2 logarithm of `y` for `y ≥ 1`, by halving; the
fuel bound 1100 covers the full binary64 range. -/
def log2Down : ℕ → ℚ → ℤ
  | 0, _ => 0
  | fuel + 1, y =>
    if y < mkRat 2 1 then 0
    else log2Down fuel (qDiv y (mkRat 2 1)) + 1

/-- Ceiling of the base-2 logarithm of `y` for `y ≥ 1`, by halving. -/
def log2Up : ℕ → ℚ → ℤ
  | 0, _ => 0
  | fuel + 1, y =>
    if y ≤ mkRat 1 1 then 0
    else log2Up fuel (qDiv y (mkRat 2 1)) + 1

/-- Largest exponent `e` with `2^e ≤ x` (for `0 < x`): the binade of a
binary64 value. -/
def binadeExp (x : ℚ) : ℤ :=
  if mkRat 1 1 ≤ x then log2Down 1100 x
  else - log2Up 1100 (qDiv (mkRat 1 1) x)

/-- Floor of a rational as an integer (core operations). -/
def ratFloorZ (q : ℚ) : ℤ := Int.fdiv q.num (Int.ofNat q.den)

/-- Round `x` to the nearest integer multiple of `u`, ties to even. -/
def roundEvenMul (u : ℚ) (x : ℚ) : ℚ :=
  let q : ℚ := qDiv x u
  let f : ℤ := ratFloorZ q
  let r : ℚ := qSub q (mkRat f 1)
  if r < mkRat 1 2 then qMul (mkRat f 1) u
  else if mkRat 1 2 < r then qMul (mkRat (f + 1) 1) u
  else if f % 2 = 0 then qMul (mkRat f 1) u
  else qMul (mkRat (f + 1) 1) u

/-- Round an exact rational to the nearest binary64 value
(normal range; ties to even). -/
def fpRound (x : ℚ) : ℚ :=
  if x = 0 then 0
  else if 0 < x then roundEvenMul (qpow2 (binadeExp x - 52)) x
  else qNeg (roundEvenMul (qpow2 (binadeExp (qNeg x) - 52)) (qNeg x))

/-- One Python float addition. -/
def fpAdd (a b : ℚ) : ℚ := fpRound (qAdd a b)

/-- One Python float division. -/
def fpDiv (a b : ℚ) : ℚ := fpRound (qDiv a b)

/-- Python `sum(...)` over floats: left fold of float addition from 0. -/
def pySum (l : List ℚ) : ℚ := l.foldl fpAdd 0

/-- Python `float(s)` for `s` of the shape `digits.digits`, given as the
two digit runs: the nearest double to the exact decimal value. -/
def pyFloatParts (ip fp : List Char) : ℚ :=
  let iv : ℕ := ip.foldl (fun n c => 10 * n + (c.toNat - 48)) 0
  let fv : ℕ := fp.foldl (fun n c => 10 * n + (c.toNat - 48)) 0
  fpRound (qAdd (mkRat (Int.ofNat iv) 1)
    (mkRat (Int.ofNat fv) (Nat.pow 10 fp.length)))

/-- Zero-pad a fractional part to three digits. -/
def pad3 (n : ℕ) : String :=
  (if n < 10 then "00" else if n < 100 then "0" else "") ++ Nat.repr n

/-- Round to the nearest integer, ties to even (CPython float
formatting rounds the exact value of the double this way). -/
def roundHalfEvenInt (q : ℚ) : ℤ :=
  let f : ℤ := ratFloorZ q
  let r : ℚ := qSub q (mkRat f 1)
  if r < mkRat 1 2 then f
  else if mkRat 1 2 < r then f + 1
  else if f % 2 = 0 then f else f + 1

/-- Python `f"{x:.3f}"` for a non-negative double `x` (all formatted
values in the source are non-negative). -/
def fmt3 (x : ℚ) : List Char :=
  let n : ℕ := (roundHalfEvenInt (qMul x (mkRat 1000 1))).toNat
  (Nat.repr (n / 1000)).toList ++ '.' :: (pad3 (n % 1000)).toList

/-! ## The Average-mode parsing step (lines 169-191)

State: the `latency_waiting_for_connection` flag and the accumulated
`latency_values`. Each `readyReadStandardOutput` delivery runs the body
of `handle_latency_output`'s else-branch on the decoded chunk. -/

/-- Samples extracted from one chunk: `for line in data.splitlines()`,
`re.search` with the frames/ms pattern, `float` on both captures
(lines 181-189). -/
def parseSamples (data : List Char) : List (ℚ × ℚ) :=
  (splitlines data).filterMap fun l =>
    (searchSampleCap l).map fun g =>
      (pyFloatParts g.1.1 g.1.2, pyFloatParts g.2.1 g.2.2)

/-- One Average-mode parsing step on (waiting flag, samples so far):
clear the flag on the first `\d+\.\d+\s+ms` match anywhere in the chunk
(line 171), then, when not waiting, append this chunk's samples
(lines 180-189). -/
def feedAvg (st : Bool × List (ℚ × ℚ)) (data : List Char) : Bool × List (ℚ × ℚ) :=
  let w := st.1 && !searchMs data
  if w then (w, st.2)
  else (w, st.2 ++ parseSamples data)

/-- Feed a sequence of chunks one at a time. -/
def feedAvgMany (st : Bool × List (ℚ × ℚ)) (chunks : List (List Char)) :
    Bool × List (ℚ × ℚ) :=
  chunks.foldl feedAvg st

/-! ## Controller state and handlers -/

/-- The state of a `QProcess` as far as the controller observes it. -/
inductive QPState where
  | Running
  | NotRunning
deriving DecidableEq, Repr

/-- `QProcess.ExitStatus`. -/
inductive ExitStatus where
  | NormalExit
  | CrashExit
deriving DecidableEq, Repr

/-- The controller state of `LatencyTesterApp` touched by the latency
test: the process reference, collected samples, the waiting flag, the
results text, the two buttons, and the 10-second timer. -/
structure Ctrl where
  latency_process : Option QPState
  latency_values : List (ℚ × ℚ)
  latency_waiting : Bool
  results_text : List Char
  run_enabled : Bool
  stop_enabled : Bool
  timer_active : Bool
deriving DecidableEq, Repr

/-- Text set when the connection signal is detected (line 173). -/
def connDetectedMsg : List Char := "Connection detected. Running test...".toList

/-- `handle_latency_output` (lines 154-191). `raw` is the live value of
the raw-output checkbox at the moment the event is handled. Raw mode
appends the decoded chunk verbatim (line 164); Average mode runs
`feedAvg` on (waiting flag, samples), arming the 10 s timer and
replacing the text when the connection signal is first seen. -/
def handle_latency_output (raw : Bool) (st : Ctrl) (data : List Char) : Ctrl :=
  match st.latency_process with
  | none => st
  | some _ =>
    if raw then { st with results_text := st.results_text ++ data }
    else
      let detected := st.latency_waiting && searchMs data
      let st1 :=
        if detected then
          { st with latency_waiting := false, results_text := connDetectedMsg,
                    timer_active := true }
        else st
      if st1.latency_waiting then st1
      else { st1 with latency_values := st1.latency_values ++ parseSamples data }

/-- Feed a sequence of chunks to `handle_latency_output`, the checkbox
holding value `raw` throughout. -/
def feedOutputs (raw : Bool) (st : Ctrl) (chunks : List (List Char)) : Ctrl :=
  chunks.foldl (handle_latency_output raw) st

/-- Message of the raw branch and of the crash branch of
`handle_latency_finished` (lines 215 and 231). -/
def msgStopped : List Char := "Measurement stopped.".toList

/-- Message of the clean zero-sample branch (line 229). -/
def msgNoReadings : List Char :=
  "No valid latency readings obtained. Check connections.".toList

/-- Message of the non-zero exit code branch (line 237). -/
def msgFailed (exit_code : ℤ) : List Char :=
  "Test failed (Exit code: ".toList ++ (Int.repr exit_code).toList ++
    "). Check connections.".toList

/-- Message of the final catch-all branch (line 239). -/
def msgFinishedNoReadings : List Char :=
  "Test finished without valid readings.".toList

/-- The averaged result line (lines 216-224): sums and means are Python
float arithmetic, formatted with `:.3f`. -/
def avgText (vals : List (ℚ × ℚ)) : List Char :=
  let count : ℚ := mkRat (Int.ofNat vals.length) 1
  let average_frames := fpDiv (pySum (vals.map Prod.fst)) count
  let average_ms := fpDiv (pySum (vals.map Prod.snd)) count
  "Round-trip latency (average): ".toList ++ fmt3 average_frames ++
    " frames / ".toList ++ fmt3 average_ms ++ " ms".toList

/-- `handle_latency_finished` (lines 208-245). The text widget is
cleared first (line 211); the branch on the raw checkbox, the sample
list and the exit status picks the final text; then the waiting flag is
reset, Run re-enabled, Stop disabled and the process reference cleared.
The `if not ...toPlainText()` guard of line 236 reads the just-cleared
widget, modelled by `cleared`. -/
def handle_latency_finished (raw : Bool) (exit_code : ℤ) (exit_status : ExitStatus)
    (st : Ctrl) : Ctrl :=
  let cleared : List Char := []
  let text :=
    if raw then msgStopped
    else
      match st.latency_values with
      | v :: rest => avgText (v :: rest)
      | [] =>
        if exit_status = ExitStatus.NormalExit ∧ exit_code = 0 then msgNoReadings
        else if exit_status = ExitStatus.CrashExit then msgStopped
        else if exit_code ≠ 0 then
          (if cleared.isEmpty then msgFailed exit_code else cleared)
        else msgFinishedNoReadings
  { st with results_text := text, latency_waiting := false,
            run_enabled := true, stop_enabled := false,
            latency_process := none }

/-- Termination requests a `stop_latency_test` call can issue. -/
inductive StopAction where
  | Terminate
  | Kill
deriving DecidableEq, Repr

/-- Whether the process exits within the 500 ms grace window after
`terminate()` (line 202); decided by the environment. -/
structure StopEnv where
  graceful : Bool

/-- Text appended when stopping (line 199). -/
def stoppingMsg : List Char := "\nStopping test...".toList

/-- `stop_latency_test` (lines 193-206): stop the timer if active; if a
process reference exists and the process is running, append the
stopping text, terminate (escalating to kill after the grace window)
and reset the waiting flag. Returns the termination requests issued;
after they complete the process is no longer running. -/
def stop_latency_test (env : StopEnv) (st : Ctrl) : Ctrl × List StopAction :=
  let st := if st.timer_active then { st with timer_active := false } else st
  match st.latency_process with
  | some QPState.Running =>
    let acts := if env.graceful then [StopAction.Terminate]
                else [StopAction.Terminate, StopAction.Kill]
    ({ st with results_text := st.results_text ++ stoppingMsg,
               latency_process := some QPState.NotRunning,
               latency_waiting := false }, acts)
  | _ => (st, [])

/-- Environment of `run_latency_test`: `shutil.which` and the live
checkbox value. -/
structure StartEnv where
  which : String → Option String
  raw_checked : Bool

/-- Startup text in raw mode (lines 114-116). -/
def startRawMsg : List Char :=
  ("Starting latency test (Raw Output)...\n" ++
   "Select ports if not already selected.\n" ++
   "Attempting auto-connection...\n").toList

/-- Startup text in Average mode (lines 118-121). -/
def startAvgMsg : List Char :=
  ("Starting latency test (Average)...\n" ++
   "Select ports if not already selected.\n" ++
   "Attempting auto-connection...\n" ++
   "Waiting for measurement signal...\n").toList

/-- Error text when neither binary resolves (lines 140-141). -/
def notFoundMsg : List Char :=
  ("Error: Neither \x27jack_delay\x27 nor \x27jack_iodelay\x27 found.\n" ++
   "Depending on your distribution, install jack-delay, jack_delay or " ++
   "jack-example-tools (jack_iodelay).").toList

/-- Guard text of line 103. -/
def inProgressMsg : List Char := "Test already in progress.".toList

/-- `run_latency_test` (lines 100-152). Returns the new controller
state and the program spawned, if any. The double-start guard
(line 102) returns early; otherwise buttons are switched, the text is
replaced, samples are cleared, the waiting flag follows the checkbox, a
fresh (not yet started) process object is created, and
`shutil.which("jack_delay")` is consulted before
`shutil.which("jack_iodelay")` (lines 134-136). When neither resolves,
the error is reported, Run re-enabled, Stop disabled, and the process
object dropped (lines 139-145); otherwise the found program is
started. -/
def run_latency_test (env : StartEnv) (st : Ctrl) : Ctrl × Option String :=
  match st.latency_process with
  | some QPState.Running =>
    ({ st with results_text := st.results_text ++ inProgressMsg }, none)
  | _ =>
    let st1 : Ctrl :=
      { st with run_enabled := false, stop_enabled := true,
                results_text := if env.raw_checked then startRawMsg else startAvgMsg,
                latency_values := [],
                latency_waiting := !env.raw_checked,
                latency_process := some QPState.NotRunning }
    let program :=
      match env.which "jack_delay" with
      | some p => some p
      | none => env.which "jack_iodelay"
    match program with
    | none =>
      ({ st1 with results_text := notFoundMsg, run_enabled := true,
                  stop_enabled := false, latency_process := none }, none)
    | some p =>
      ({ st1 with latency_process := some QPState.Running }, some p)

/-- The controller state right after `setup_latency_tab` (lines 336-371):
no process, no samples, Run enabled, Stop disabled, initial text. -/
def idleCtrl : Ctrl :=
  { latency_process := none, latency_values := [], latency_waiting := false,
    results_text := "Ready to test.".toList, run_enabled := true,
    stop_enabled := false, timer_active := false }

/-! ## JACK graph model

`_attempt_latency_auto_connection` (lines 443-484) and
`make_connection` (lines 488-506) interact with the JACK client:
`get_ports`, `get_all_connections` and `connect`. Operations that may
raise `jack.JackError` carry explicit failure oracles; the oracles
abstract every environment-caused failure (server trouble, port
vanishing between calls, and so on). Only `connect`'s
already-connected failure is state-dependent and is modelled
explicitly. -/

/-- A JACK port as seen through `client.get_ports`. -/
structure JPort where
  name : String
  is_input : Bool
  is_output : Bool
  is_audio : Bool
  is_physical : Bool
deriving DecidableEq, Repr

/-- The live graph plus failure oracles: `query_fails p` — a
`get_all_connections(p)` call raises; `connect_fails a b` — a
`connect(a, b)` call raises for environment reasons;
`get_ports_input_fails` / `get_ports_output_fails` — the
`get_ports(is_input=True, ...)` / `get_ports(is_output=True, ...)`
calls of lines 464 and 471 raise. -/
structure JackGraph where
  ports : List JPort
  connections : List (String × String)
  query_fails : String → Bool
  connect_fails : String → String → Bool
  get_ports_input_fails : Bool
  get_ports_output_fails : Bool

/-- `client.get_ports(is_input=True, is_audio=True)` (line 464). -/
def get_ports_input_audio (g : JackGraph) : List JPort :=
  g.ports.filter fun p => p.is_input && p.is_audio

/-- `client.get_ports(is_output=True, is_audio=True)` (line 471). -/
def get_ports_output_audio (g : JackGraph) : List JPort :=
  g.ports.filter fun p => p.is_output && p.is_audio

/-- `client.get_all_connections(name)`: every port connected to `name`,
on either side of an edge. -/
def get_all_connections (g : JackGraph) (name : String) : List String :=
  ((g.connections.filter fun e => e.1 = name).map Prod.snd) ++
    ((g.connections.filter fun e => e.2 = name).map Prod.fst)

/-- `client.connect(src, dst)`: fails (raises) when the oracle says so
or when the edge already exists (EEXIST); on success the edge is added.
Returns the graph and whether the call raised. -/
def client_connect (g : JackGraph) (src dst : String) : JackGraph × Bool :=
  if g.connect_fails src dst || (src, dst) ∈ g.connections then (g, true)
  else ({ g with connections := (src, dst) :: g.connections }, false)

/-- `make_connection` (lines 488-506): query the source side's existing
connections — on success, skip if the target is already listed; if the
query raises, "try the connect anyway" (line 497-499). Connect errors
are caught and logged (lines 504-506). Returns the graph and the list
of `connect` calls issued. -/
def make_connection (g : JackGraph) (output_name input_name : String) :
    JackGraph × List (String × String) :=
  if !g.query_fails output_name &&
      (get_all_connections g output_name).contains input_name then
    (g, [])
  else
    ((client_connect g output_name input_name).1, [(output_name, input_name)])

/-- `_attempt_latency_auto_connection` (lines 443-484). Inputs are the
two combo-box selections (`None` while unselected). Both edges live in
one `try` block: a raised `get_ports` aborts the rest of the attempt
(caught at lines 478-484); `make_connection` itself never raises. The
target-existence checks of lines 464 and 471 guard each edge. Returns
the graph and the `connect` calls issued. -/
def attempt_auto_connection (g : JackGraph)
    (input_alias output_alias : Option String) : JackGraph × List (String × String) :=
  match input_alias, output_alias with
  | some inp, some outp =>
    if g.get_ports_input_fails then (g, [])
    else
      let step1 :=
        if (get_ports_input_audio g).any fun p => p.name = outp then
          make_connection g "jack_delay:out" outp
        else (g, [])
      if g.get_ports_output_fails then (step1.1, step1.2)
      else
        let step2 :=
          if (get_ports_output_audio step1.1).any fun p => p.name = inp then
            make_connection step1.1 inp "jack_delay:in"
          else (step1.1, [])
        (step2.1, step1.2 ++ step2.2)
  | _, _ => (g, [])

/-- Actions `_on_port_registered` can schedule via
`QTimer.singleShot`. -/
inductive Scheduled where
  | AttemptAutoConnection
  | PopulateCombos
deriving DecidableEq, Repr

/-- Substring test, Python `sub in s`. -/
def strContains (hay needle : String) : Bool :=
  decide (needle.toList <:+: hay.toList)

/-- `_on_port_registered` (lines 533-547): nothing when callbacks are
disabled; schedule the auto-connection attempt only when the registered
name is exactly `jack_delay:in` or `jack_delay:out`; schedule a
combo-box refresh when the name looks physical. -/
def on_port_registered (callbacks_enabled : Bool) (port_name : String)
    (_is_input : Bool) : List Scheduled :=
  if !callbacks_enabled then []
  else
    (if port_name = "jack_delay:in" || port_name = "jack_delay:out" then
      [Scheduled.AttemptAutoConnection]
    else []) ++
    (if strContains port_name "system:" || strContains port_name "alsa_input" ||
        strContains port_name "alsa_output" then
      [Scheduled.PopulateCombos]
    else [])

/-- How a reconciliation step may change the graph: the port list and
the failure oracles are untouched, and existing connections persist
(connects only ever add edges). -/
def GraphEvolves (g g2 : JackGraph) : Prop :=
  g2.ports = g.ports ∧ g2.query_fails = g.query_fails ∧
  g2.connect_fails = g.connect_fails ∧
  g2.get_ports_input_fails = g.get_ports_input_fails ∧
  g2.get_ports_output_fails = g.get_ports_output_fails ∧
  ∀ e ∈ g.connections, e ∈ g2.connections

/-! ## Concrete graph states used to exercise the reconciliation code -/

/-- The tool input port, as registered by jack_delay. -/
def jdInPort : JPort :=
  { name := "jack_delay:in", is_input := true, is_output := false,
    is_audio := true, is_physical := false }

/-- The tool output port. -/
def jdOutPort : JPort :=
  { name := "jack_delay:out", is_input := false, is_output := true,
    is_audio := true, is_physical := false }

/-- A physical playback port (an audio input of the graph). -/
def sysPlayPort : JPort :=
  { name := "system:playback_1", is_input := true, is_output := false,
    is_audio := true, is_physical := true }

/-- A physical capture port (an audio output of the graph). -/
def sysCapPort : JPort :=
  { name := "system:capture_1", is_input := false, is_output := true,
    is_audio := true, is_physical := true }

/-- A healthy graph: all four ports present, nothing connected, no
failures. -/
def gEdgesOK : JackGraph :=
  { ports := [jdInPort, jdOutPort, sysPlayPort, sysCapPort],
    connections := [], query_fails := fun _ => false,
    connect_fails := fun _ _ => false,
    get_ports_input_fails := false, get_ports_output_fails := false }

/-- The same graph except that every `get_all_connections` call
raises. -/
def gQueryFail : JackGraph :=
  { gEdgesOK with query_fails := fun _ => true }

/-- The same graph except that the `get_ports(is_input=True, ...)` call
of line 464 raises. -/
def gPortsFail : JackGraph :=
  { gEdgesOK with get_ports_input_fails := true }

/-! ## Lemmas: scanning combinators -/

theorem spanP_eq_append (p : Char → Bool) (s : List Char) :
    (spanP p s).1 ++ (spanP p s).2 = s := by
  induction s with
  | nil => rfl
  | cons c r ih =>
    by_cases h : p c
    · simp [spanP, h, ih]
    · simp [spanP, h]

theorem spanP_fst_all (p : Char → Bool) (s : List Char) :
    ∀ c ∈ (spanP p s).1, p c = true := by
  induction s with
  | nil => simp [spanP]
  | cons c r ih =>
    by_cases h : p c
    · simpa [spanP, h] using ih
    · simp [spanP, h]

theorem spanP_snd_head (p : Char → Bool) (s : List Char) :
    ∀ x t, (spanP p s).2 = x :: t → p x = false := by
  induction s with
  | nil => simp [spanP]
  | cons c r ih =>
    by_cases h : p c
    · simpa [spanP, h] using ih
    · intro x t hx
      simp [spanP, h] at hx
      obtain ⟨rfl, -⟩ := hx
      simpa using h

theorem spanP_parts (p : Char → Bool) (a : List Char) (x : Char) (l : List Char)
    (ha : ∀ c ∈ a, p c = true) (hx : p x = false) :
    spanP p (a ++ x :: l) = (a, x :: l) := by
  induction a with
  | nil => simp [spanP, hx]
  | cons c a ih =>
    have hc : p c = true := ha c (by simp)
    have ih2 := ih (fun d hd => ha d (by simp [hd]))
    simp [spanP, hc, ih2]

theorem expectRun_sound (p : Char → Bool) (s d r : List Char)
    (h : expectRun p s = some (d, r)) :
    d ≠ [] ∧ s = d ++ r ∧ (∀ c ∈ d, p c = true) ∧
      (∀ x t, r = x :: t → p x = false) := by
  unfold expectRun at h
  rcases hs : spanP p s with ⟨d0, r0⟩
  rw [hs] at h
  cases d0 with
  | nil => simp at h
  | cons c d0 =>
    simp only [Option.some.injEq, Prod.mk.injEq] at h
    obtain ⟨rfl, rfl⟩ := h
    refine ⟨by simp, ?_, ?_, ?_⟩
    · have := spanP_eq_append p s
      rw [hs] at this
      exact this.symm
    · have := spanP_fst_all p s
      rw [hs] at this
      exact this
    · have := spanP_snd_head p s
      rw [hs] at this
      exact this

theorem expectRun_parts (p : Char → Bool) (d : List Char) (x : Char) (l : List Char)
    (hd : d ≠ []) (ha : ∀ c ∈ d, p c = true) (hx : p x = false) :
    expectRun p (d ++ x :: l) = some (d, x :: l) := by
  unfold expectRun
  rw [spanP_parts p d x l ha hx]
  cases d with
  | nil => exact absurd rfl hd
  | cons c d => rfl

theorem expectRun_append (p : Char → Bool) (s d r B : List Char)
    (h : expectRun p s = some (d, r)) (hr : r ≠ []) :
    expectRun p (s ++ B) = some (d, r ++ B) := by
  obtain ⟨hd, hs, hall, hhead⟩ := expectRun_sound p s d r h
  cases r with
  | nil => exact absurd rfl hr
  | cons x t =>
    have hx : p x = false := hhead x t rfl
    subst hs
    rw [List.append_assoc, List.cons_append]
    exact expectRun_parts p d x (t ++ B) hd hall hx

theorem expectChar_sound (c : Char) (s r : List Char)
    (h : expectChar c s = some r) : s = c :: r := by
  cases s with
  | nil => simp [expectChar] at h
  | cons x t =>
    by_cases hx : x = c
    · simp [expectChar, hx] at h
      simp [hx, h]
    · simp [expectChar, hx] at h

theorem expectChar_self (c : Char) (r : List Char) :
    expectChar c (c :: r) = some r := by
  simp [expectChar]

theorem expectLit_sound (w : List Char) : ∀ s r : List Char,
    expectLit w s = some r → s = w ++ r := by
  induction w with
  | nil =>
    intro s r h
    simp only [expectLit, Option.some.injEq] at h
    simpa using h
  | cons c w ih =>
    intro s r h
    cases s with
    | nil => simp [expectLit] at h
    | cons x t =>
      by_cases hx : x = c
      · subst hx
        simp only [expectLit, if_pos rfl] at h
        simpa using ih t r h
      · simp [expectLit, hx] at h

theorem expectLit_self (w : List Char) : ∀ t : List Char,
    expectLit w (w ++ t) = some t := by
  induction w with
  | nil => intro t; rfl
  | cons c w ih => intro t; simpa [expectLit] using ih t

/-! ## Lemmas: the deterministic matchers -/

theorem matchMsCapAt_append (s B : List Char) (g : List Char × List Char)
    (r : List Char) (h : matchMsCapAt s = some (g, r)) :
    matchMsCapAt (s ++ B) = some (g, r ++ B) := by
  simp only [matchMsCapAt, Option.bind_eq_some, Option.map_eq_some'] at h
  obtain ⟨q1, h1, r2, h2, q2, h3, q3, h4, r5, h5, hres⟩ := h
  rw [Prod.mk.injEq] at hres
  obtain ⟨rfl, rfl⟩ := hres
  have hr1 : q1.2 = '.' :: r2 := expectChar_sound _ _ _ h2
  have hq3 : q2.2 = q3.1 ++ q3.2 ∧ q3.1 ≠ [] := by
    obtain ⟨hne, heq, -, -⟩ := expectRun_sound isSpaceC q2.2 q3.1 q3.2 h4
    exact ⟨heq, hne⟩
  have hr4 : q3.2 = ['m', 's'] ++ r5 := expectLit_sound _ _ _ h5
  have e1 : expectDigits (s ++ B) = some (q1.1, q1.2 ++ B) :=
    expectRun_append isDigitC s q1.1 q1.2 B h1 (by simp [hr1])
  have e3 : expectDigits (r2 ++ B) = some (q2.1, q2.2 ++ B) :=
    expectRun_append isDigitC r2 q2.1 q2.2 B h3
      (by
        rw [hq3.1]
        rcases hx : q3.1 with _ | ⟨y, ys⟩
        · exact absurd hx hq3.2
        · simp)
  have e4 : expectSpaces (q2.2 ++ B) = some (q3.1, q3.2 ++ B) :=
    expectRun_append isSpaceC q2.2 q3.1 q3.2 B h4 (by simp [hr4])
  have e5 : expectLit ['m', 's'] (q3.2 ++ B) = some (r5 ++ B) := by
    rw [hr4, List.append_assoc]
    exact expectLit_self _ _
  simp only [matchMsCapAt, e1, Option.some_bind, hr1, List.cons_append,
    expectChar_self, e3, e4, e5, Option.map_some']

theorem matchMsAt_append (s B : List Char) (h : matchMsAt s = true) :
    matchMsAt (s ++ B) = true := by
  unfold matchMsAt at h ⊢
  rcases hm : matchMsCapAt s with _ | ⟨g, r⟩
  · rw [hm] at h; simp at h
  · rw [matchMsCapAt_append s B g r hm]; rfl

theorem searchMs_append_left (A B : List Char) (h : searchMs A = true) :
    searchMs (A ++ B) = true := by
  induction A with
  | nil => simp [searchMs] at h
  | cons c r ih =>
    rw [searchMs] at h
    rcases Bool.or_eq_true_iff.mp h with hm | hs
    · rw [List.cons_append, searchMs]
      exact Bool.or_eq_true_iff.mpr (Or.inl (by
        have := matchMsAt_append (c :: r) B hm
        simpa using this))
    · rw [List.cons_append, searchMs]
      exact Bool.or_eq_true_iff.mpr (Or.inr (ih hs))

theorem searchMs_append_right (A B : List Char) (h : searchMs B = true) :
    searchMs (A ++ B) = true := by
  induction A with
  | nil => simpa using h
  | cons c r ih =>
    rw [List.cons_append, searchMs]
    exact Bool.or_eq_true_iff.mpr (Or.inr ih)

theorem searchMs_of_suffix (t s : List Char) (hts : t <:+ s)
    (h : searchMs t = true) : searchMs s = true := by
  obtain ⟨A, rfl⟩ := hts
  exact searchMs_append_right A t h

theorem searchMs_of_pfx (t s : List Char) (hts : t <+: s)
    (h : searchMs t = true) : searchMs s = true := by
  obtain ⟨B, rfl⟩ := hts
  exact searchMs_append_left t B h

theorem matchMsCapAt_nil : matchMsCapAt [] = none := rfl

theorem matchMsAt_searchMs (t : List Char) (h : matchMsAt t = true) :
    searchMs t = true := by
  cases t with
  | nil => simp [matchMsAt, matchMsCapAt_nil] at h
  | cons c r => rw [searchMs]; exact Bool.or_eq_true_iff.mpr (Or.inl h)

theorem matchSampleAt_ms (s : List Char)
    (g : (List Char × List Char) × (List Char × List Char))
    (h : matchSampleAt s = some g) :
    ∃ t, t <:+ s ∧ matchMsAt t = true := by
  simp only [matchSampleAt, Option.bind_eq_some, Option.map_eq_some'] at h
  obtain ⟨q1, h1, r2, h2, q2, h3, q3, h4, r5, h5, q4, h6, c2, h7, -⟩ := h
  refine ⟨q4.2, ?_, by simp [matchMsAt, h7]⟩
  have s1 : q1.2 <:+ s := by
    obtain ⟨-, heq, -, -⟩ := expectRun_sound isDigitC s q1.1 q1.2 h1
    rw [heq]; exact List.suffix_append _ _
  have s2 : r2 <:+ q1.2 := by
    rw [expectChar_sound _ _ _ h2]; exact List.suffix_cons _ _
  have s3 : q2.2 <:+ r2 := by
    obtain ⟨-, heq, -, -⟩ := expectRun_sound isDigitC r2 q2.1 q2.2 h3
    rw [heq]; exact List.suffix_append _ _
  have s4 : q3.2 <:+ q2.2 := by
    obtain ⟨-, heq, -, -⟩ := expectRun_sound isSpaceC q2.2 q3.1 q3.2 h4
    rw [heq]; exact List.suffix_append _ _
  have s5 : r5 <:+ q3.2 := by
    rw [expectLit_sound _ _ _ h5]; exact List.suffix_append _ _
  have s6 : q4.2 <:+ r5 := by
    obtain ⟨-, heq, -, -⟩ := expectRun_sound isSpaceC r5 q4.1 q4.2 h6
    rw [heq]; exact List.suffix_append _ _
  exact ((((s6.trans s5).trans s4).trans s3).trans s2).trans s1

theorem searchSampleCap_searchMs (l : List Char)
    (g : (List Char × List Char) × (List Char × List Char))
    (h : searchSampleCap l = some g) : searchMs l = true := by
  induction l with
  | nil => simp [searchSampleCap] at h
  | cons c r ih =>
    rw [searchSampleCap] at h
    rcases hm : matchSampleAt (c :: r) with _ | g2
    · rw [hm] at h
      exact searchMs_of_suffix r (c :: r) (List.suffix_cons c r) (ih h)
    · obtain ⟨t, hts, hmt⟩ := matchSampleAt_ms (c :: r) g2 hm
      exact searchMs_of_suffix t (c :: r) hts (matchMsAt_searchMs t hmt)

/-! ## Lemmas: `splitlines` -/

theorem splitlines_nil : splitlines [] = [] := rfl

theorem splitlines_rn (rest : List Char) :
    splitlines ('\r' :: '\n' :: rest) = [] :: splitlines rest := rfl

theorem splitlines_r_nil : splitlines ['\r'] = [[]] := rfl

set_option maxHeartbeats 1000000 in
theorem splitlines_r_other (d : Char) (rest : List Char) (hd : d ≠ '\n') :
    splitlines ('\r' :: d :: rest) = [] :: splitlines (d :: rest) := by
  simp [splitlines, hd]

set_option maxHeartbeats 1000000 in
theorem splitlines_brk (c : Char) (rest : List Char) (hc : c ≠ '\r')
    (hb : isLineBreak c = true) :
    splitlines (c :: rest) = [] :: splitlines rest := by
  simp [splitlines, hc, hb]

set_option maxHeartbeats 1000000 in
theorem splitlines_chr (c : Char) (rest : List Char) (hc : c ≠ '\r')
    (hb : isLineBreak c = false) :
    splitlines (c :: rest) =
      match splitlines rest with
      | [] => [[c]]
      | l :: ls => (c :: l) :: ls := by
  simp [splitlines, hc, hb]

theorem splitlines_cons_ne (c : Char) (rest : List Char) :
    splitlines (c :: rest) ≠ [] := by
  by_cases hc : c = '\r'
  · subst hc
    cases rest with
    | nil => rw [splitlines_r_nil]; simp
    | cons d r2 =>
      by_cases hd : d = '\n'
      · subst hd; rw [splitlines_rn]; simp
      · rw [splitlines_r_other d r2 hd]; simp
  · by_cases hb : isLineBreak c = true
    · rw [splitlines_brk c rest hc hb]; simp
    · rw [splitlines_chr c rest hc (by simpa using hb)]
      rcases splitlines rest with _ | ⟨l, ls⟩ <;> simp

theorem splitlines_eq_nil (s : List Char) (h : splitlines s = []) : s = [] := by
  cases s with
  | nil => rfl
  | cons c rest => exact absurd h (splitlines_cons_ne c rest)

theorem ne_cr_of_cases {c : Char} {rest : List Char}
    (h1 : ∀ r1 : List Char, c = '\r' → rest = '\n' :: r1 → False)
    (h2 : c = '\r' → rest = [] → False)
    (h3 : ∀ (d : Char) (r1 : List Char), c = '\r' → rest = d :: r1 → False) :
    c ≠ '\r' := by
  intro hc
  cases rest with
  | nil => exact h2 hc rfl
  | cons d r1 => exact h3 d r1 hc rfl

theorem splitlines_head_pfx (s : List Char) :
    ∀ l ls, splitlines s = l :: ls → l <+: s := by
  induction s using splitlines.induct with
  | case1 =>
    intro l ls h
    rw [splitlines_nil] at h
    cases h
  | case2 r ih =>
    intro l ls h
    rw [splitlines_rn] at h
    obtain ⟨rfl, -⟩ := List.cons.injEq _ _ _ _ ▸ h
    exact List.nil_prefix
  | case3 =>
    intro l ls h
    rw [splitlines_r_nil] at h
    obtain ⟨rfl, -⟩ := List.cons.injEq _ _ _ _ ▸ h
    exact List.nil_prefix
  | case4 d r hd ih =>
    intro l ls h
    rw [splitlines_r_other d r fun hdn => hd hdn] at h
    obtain ⟨rfl, -⟩ := List.cons.injEq _ _ _ _ ▸ h
    exact List.nil_prefix
  | case5 c r h1 h2 h3 hb ih =>
    intro l ls h
    rw [splitlines_brk c r (ne_cr_of_cases h1 h2 h3) hb] at h
    obtain ⟨rfl, -⟩ := List.cons.injEq _ _ _ _ ▸ h
    exact List.nil_prefix
  | case6 c r h1 h2 h3 hb hnil ih =>
    intro l ls h
    rw [splitlines_chr c r (ne_cr_of_cases h1 h2 h3) (by simpa using hb), hnil] at h
    obtain ⟨rfl, -⟩ := List.cons.injEq _ _ _ _ ▸ h
    exact ⟨r, rfl⟩
  | case7 c r h1 h2 h3 hb l0 ls0 hsp ih =>
    intro l ls h
    rw [splitlines_chr c r (ne_cr_of_cases h1 h2 h3) (by simpa using hb), hsp] at h
    obtain ⟨rfl, -⟩ := List.cons.injEq _ _ _ _ ▸ h
    obtain ⟨t, rfl⟩ := ih l0 ls0 hsp
    exact ⟨t, rfl⟩

theorem splitlines_append (A B : List Char) (h : A.getLast? = some '\n') :
    splitlines (A ++ B) = splitlines A ++ splitlines B := by
  induction A using splitlines.induct with
  | case1 => simp at h
  | case2 r2 ih =>
    cases r2 with
    | nil =>
      rw [List.cons_append, List.cons_append, List.nil_append,
        splitlines_rn, splitlines_rn, splitlines_nil]
      simp
    | cons e r3 =>
      have hlast : (e :: r3).getLast? = some '\n' := by
        rw [List.getLast?_cons_cons, List.getLast?_cons_cons] at h
        exact h
      rw [List.cons_append, List.cons_append, splitlines_rn, splitlines_rn]
      rw [ih hlast]
      simp
  | case3 => simp [List.getLast?_singleton] at h
  | case4 d r2 hd ih =>
    have hdn : d ≠ '\n' := fun hdd => hd hdd
    have hlast : (d :: r2).getLast? = some '\n' := by
      rw [List.getLast?_cons_cons] at h
      exact h
    rw [List.cons_append, List.cons_append, splitlines_r_other d (r2 ++ B) hdn,
      splitlines_r_other d r2 hdn]
    rw [show d :: (r2 ++ B) = (d :: r2) ++ B from rfl, ih hlast]
    simp
  | case5 c r h1 h2 h3 hb ih =>
    have hc : c ≠ '\r' := ne_cr_of_cases h1 h2 h3
    cases r with
    | nil =>
      have hcn : c = '\n' := by simpa [List.getLast?_singleton] using h
      subst hcn
      rw [List.cons_append, List.nil_append, splitlines_brk _ B hc hb,
        splitlines_brk _ [] hc hb, splitlines_nil]
      simp
    | cons d r2 =>
      have hlast : (d :: r2).getLast? = some '\n' := by
        rw [List.getLast?_cons_cons] at h
        exact h
      rw [List.cons_append, splitlines_brk _ _ hc hb, splitlines_brk _ _ hc hb,
        ih hlast]
      simp
  | case6 c r h1 h2 h3 hb hnil ih =>
    have hr : r = [] := splitlines_eq_nil r hnil
    subst hr
    have hcn : c = '\n' := by simpa [List.getLast?_singleton] using h
    subst hcn
    exact absurd (by decide : isLineBreak '\n' = true) hb
  | case7 c r h1 h2 h3 hb l0 ls0 hsp ih =>
    have hc : c ≠ '\r' := ne_cr_of_cases h1 h2 h3
    have hrne : r ≠ [] := by
      intro hr
      subst hr
      rw [splitlines_nil] at hsp
      cases hsp
    have hlast : r.getLast? = some '\n' := by
      cases r with
      | nil => exact absurd rfl hrne
      | cons d r2 =>
        rw [List.getLast?_cons_cons] at h
        exact h
    have hb2 : isLineBreak c = false := by simpa using hb
    rw [List.cons_append, splitlines_chr c (r ++ B) hc hb2, ih hlast, hsp,
      splitlines_chr c r hc hb2, hsp]
    simp

/-! ## Lemmas: `parseSamples` -/

theorem parseSamples_append (A B : List Char) (h : A.getLast? = some '\n') :
    parseSamples (A ++ B) = parseSamples A ++ parseSamples B := by
  unfold parseSamples
  rw [splitlines_append A B h, List.filterMap_append]

theorem searchMs_cons_false (c : Char) (r : List Char)
    (h : searchMs (c :: r) = false) :
    matchMsAt (c :: r) = false ∧ searchMs r = false := by
  rw [searchMs] at h
  exact Bool.or_eq_false_iff.mp h

theorem searchSampleCap_nil : searchSampleCap [] = none := rfl

theorem parseSamples_of_no_ms (s : List Char) :
    searchMs s = false → parseSamples s = [] := by
  induction s using splitlines.induct with
  | case1 =>
    intro h
    simp [parseSamples, splitlines_nil]
  | case2 r ih =>
    intro h
    obtain ⟨-, hr⟩ := searchMs_cons_false _ _ h
    obtain ⟨-, hr2⟩ := searchMs_cons_false _ _ hr
    have ih2 := ih hr2
    unfold parseSamples at ih2 ⊢
    rw [splitlines_rn]
    simpa [searchSampleCap_nil] using ih2
  | case3 =>
    intro h
    simp [parseSamples, splitlines_r_nil, searchSampleCap_nil]
  | case4 d r hd ih =>
    intro h
    obtain ⟨-, hr⟩ := searchMs_cons_false _ _ h
    have ih2 := ih hr
    unfold parseSamples at ih2 ⊢
    rw [splitlines_r_other d r fun hdn => hd hdn]
    simpa [searchSampleCap_nil] using ih2
  | case5 c r h1 h2 h3 hb ih =>
    intro h
    obtain ⟨-, hr⟩ := searchMs_cons_false _ _ h
    have ih2 := ih hr
    unfold parseSamples at ih2 ⊢
    rw [splitlines_brk c r (ne_cr_of_cases h1 h2 h3) hb]
    simpa [searchSampleCap_nil] using ih2
  | case6 c r h1 h2 h3 hb hnil ih =>
    intro h
    have hr : r = [] := splitlines_eq_nil r hnil
    subst hr
    unfold parseSamples
    rw [splitlines_chr c [] (ne_cr_of_cases h1 h2 h3) (by simpa using hb),
      splitlines_nil]
    rcases hs : searchSampleCap [c] with _ | g
    · simp [hs]
    · exact absurd (searchSampleCap_searchMs [c] g hs) (by simp [h])
  | case7 c r h1 h2 h3 hb l0 ls0 hsp ih =>
    intro h
    obtain ⟨-, hr⟩ := searchMs_cons_false _ _ h
    have ih2 := ih hr
    unfold parseSamples at ih2 ⊢
    rw [splitlines_chr c r (ne_cr_of_cases h1 h2 h3) (by simpa using hb), hsp]
    rw [hsp] at ih2
    have hall := List.filterMap_eq_nil_iff.mp ih2
    have htail : List.filterMap
        (fun l => (searchSampleCap l).map fun g =>
          (pyFloatParts g.1.1 g.1.2, pyFloatParts g.2.1 g.2.2)) ls0 = [] :=
      List.filterMap_eq_nil_iff.mpr fun a ha => hall a (by simp [ha])
    rcases hs : searchSampleCap (c :: l0) with _ | g
    · simp [hs, htail]
    · have hcl : (c :: l0) <+: (c :: r) :=
        splitlines_head_pfx (c :: r) (c :: l0) ls0
          (by rw [splitlines_chr c r (ne_cr_of_cases h1 h2 h3) (by simpa using hb),
                hsp])
      exact absurd (searchMs_of_pfx (c :: l0) (c :: r) hcl
        (searchSampleCap_searchMs (c :: l0) g hs)) (by simp [h])

/-! ## Lemmas: Average-mode feeding -/

theorem feedAvg_comp (w : Bool) (vs : List (ℚ × ℚ)) (c J : List Char)
    (hc : c.getLast? = some '\n') :
    (feedAvg (feedAvg (w, vs) c) J).2 = (feedAvg (w, vs) (c ++ J)).2 := by
  cases w with
  | false =>
    simp [feedAvg, parseSamples_append c J hc]
  | true =>
    cases hsc : searchMs c with
    | true =>
      have h1 : searchMs (c ++ J) = true := searchMs_append_left c J hsc
      simp [feedAvg, hsc, h1, parseSamples_append c J hc]
    | false =>
      cases hsj : searchMs J with
      | true =>
        have h1 : searchMs (c ++ J) = true := searchMs_append_right c J hsj
        simp [feedAvg, hsc, hsj, h1, parseSamples_append c J hc,
          parseSamples_of_no_ms c hsc]
      | false =>
        cases hsall : searchMs (c ++ J) with
        | true =>
          simp [feedAvg, hsc, hsj, hsall, parseSamples_append c J hc,
            parseSamples_of_no_ms c hsc, parseSamples_of_no_ms J hsj]
        | false =>
          simp [feedAvg, hsc, hsj, hsall]

theorem feedAvg_join (chunks : List (List Char))
    (h : ∀ c ∈ chunks, c.getLast? = some '\n') :
    ∀ st : Bool × List (ℚ × ℚ),
      (feedAvgMany st chunks).2 = (feedAvg st chunks.flatten).2 := by
  induction chunks with
  | nil =>
    intro st
    obtain ⟨w, vs⟩ := st
    cases w <;>
      simp [feedAvgMany, feedAvg, parseSamples, splitlines_nil, searchMs]
  | cons c cs ih =>
    intro st
    obtain ⟨w, vs⟩ := st
    have hc : c.getLast? = some '\n' := h c (by simp)
    have hcs : ∀ x ∈ cs, x.getLast? = some '\n' := fun x hx => h x (by simp [hx])
    have step : feedAvgMany (w, vs) (c :: cs) = feedAvgMany (feedAvg (w, vs) c) cs :=
      rfl
    rw [step, ih hcs (feedAvg (w, vs) c)]
    have : feedAvg (w, vs) c = ((feedAvg (w, vs) c).1, (feedAvg (w, vs) c).2) := rfl
    rw [show (c :: cs).flatten = c ++ cs.flatten from rfl]
    exact feedAvg_comp w vs c cs.flatten hc

/-! ## Claim C1 -/

/-- Claim C1, counterexample. The claim asserts chunk-boundary
invariance of Average-mode parsing for every split of a text, on the
strength of a line buffer retaining trailing partial lines. The code
(lines 159, 181) keeps no buffer: each call splits only its own chunk.
Feeding `"64.0 frames 1.4 ms\n"` whole (with the connection signal
already seen) appends one sample; feeding it as the two chunks
`"64.0 frames "` and `"1.4 ms\n"` — same concatenation — appends none,
so the claimed invariance is false at this input. -/
theorem C1_counterexample :
    ("64.0 frames ".toList ++ "1.4 ms\n".toList = "64.0 frames 1.4 ms\n".toList) ∧
    (feedAvgMany (false, ([] : List (ℚ × ℚ)))
        ["64.0 frames ".toList, "1.4 ms\n".toList]).2 ≠
      (feedAvgMany (false, []) ["64.0 frames 1.4 ms\n".toList]).2 := by
  constructor
  · rfl
  · decide

/-- Claim C1 as amended: the output handler retains no line buffer, so
chunk-boundary invariance of the appended sample sequence holds only
when every chunk ends with a newline (chunk boundaries on line
boundaries); a measurement line split across a chunk boundary is
silently lost. For newline-terminated chunks, feeding them one at a
time appends exactly the samples of feeding the concatenation as one
chunk, from any waiting-flag state and sample list. -/
theorem C1_theorem (chunks : List (List Char)) (w : Bool) (vs : List (ℚ × ℚ))
    (h : ∀ c ∈ chunks, c.getLast? = some '\n') :
    (feedAvgMany (w, vs) chunks).2 = (feedAvgMany (w, vs) [chunks.flatten]).2 := by
  rw [feedAvg_join chunks h (w, vs)]
  rfl

/-- Witness for `C1_theorem` at a concrete chunk sequence. -/
theorem C1_theorem_witness :
    (∀ c ∈ [" 1.0 frames 2.0 ms\n".toList, "x\n".toList],
        c.getLast? = some '\n') ∧
    (feedAvgMany (true, ([] : List (ℚ × ℚ)))
        [" 1.0 frames 2.0 ms\n".toList, "x\n".toList]).2 =
      (feedAvgMany (true, [])
        [[" 1.0 frames 2.0 ms\n".toList, "x\n".toList].flatten]).2 :=
  ⟨by decide, C1_theorem [" 1.0 frames 2.0 ms\n".toList, "x\n".toList] true []
    (by decide)⟩

/-! ## Claim C2 -/

/-- Claim C2: Average-mode finalization with a non-empty sample list
reports the mean of the frames values and the mean of the milliseconds
values (Python float arithmetic: summed with `sum`, divided by the
count), each formatted to three decimal places (lines 216-224); and for
the sample list [(64.0, 1.333), (64.0, 1.5)] — the doubles written
`64.0`, `1.333`, `1.5` — the reported result is exactly
"Round-trip latency (average): 64.000 frames / 1.417 ms". -/
theorem C2_theorem :
    (∀ (ec : ℤ) (es : ExitStatus) (st : Ctrl), st.latency_values ≠ [] →
      (handle_latency_finished false ec es st).results_text =
        avgText st.latency_values) ∧
    avgText [((64 : ℚ), fpRound (mkRat 1333 1000)), ((64 : ℚ), fpRound (mkRat 3 2))] =
      "Round-trip latency (average): 64.000 frames / 1.417 ms".toList := by
  constructor
  · intro ec es st hne
    unfold handle_latency_finished
    rcases hv : st.latency_values with _ | ⟨v, rest⟩
    · exact absurd hv hne
    · simp [hv]
  · decide

/-- Witness for `C2_theorem`'s general conjunct at the concrete
session of the claim. -/
theorem C2_theorem_witness :
    (handle_latency_finished false 0 ExitStatus.NormalExit
      { latency_process := some QPState.Running,
        latency_values := [((64 : ℚ), fpRound (mkRat 1333 1000)),
          ((64 : ℚ), fpRound (mkRat 3 2))],
        latency_waiting := false, results_text := [],
        run_enabled := false, stop_enabled := true,
        timer_active := true }).results_text =
      "Round-trip latency (average): 64.000 frames / 1.417 ms".toList := by
  rw [C2_theorem.1 0 ExitStatus.NormalExit _ (by decide)]
  exact C2_theorem.2

/-! ## Claim C5 -/

/-- Claim C5: zero-sample Average-mode finalization distinguishes
outcomes (lines 225-239). Normal exit with code 0 reports the
no-valid-readings message; a crash reports the stopped message; normal
exit with a non-zero code `n` reports the failure message naming `n`,
which differs from the crash message. No branch reports a numeric
result. -/
theorem C5_theorem :
    (∀ st : Ctrl, st.latency_values = [] →
      (handle_latency_finished false 0 ExitStatus.NormalExit st).results_text =
        msgNoReadings) ∧
    (∀ (st : Ctrl) (n : ℤ), st.latency_values = [] →
      (handle_latency_finished false n ExitStatus.CrashExit st).results_text =
        msgStopped) ∧
    (∀ (st : Ctrl) (n : ℤ), st.latency_values = [] → n ≠ 0 →
      (handle_latency_finished false n ExitStatus.NormalExit st).results_text =
        msgFailed n ∧ msgFailed n ≠ msgStopped) := by
  refine ⟨?_, ?_, ?_⟩
  · intro st hv
    unfold handle_latency_finished
    simp [hv]
  · intro st n hv
    unfold handle_latency_finished
    simp [hv]
  · intro st n hv hn
    constructor
    · unfold handle_latency_finished
      simp [hv, hn]
    · intro heq
      have hT : (msgFailed n).head? = some 'T' := rfl
      have hM : msgStopped.head? = some 'M' := rfl
      rw [heq, hM] at hT
      simp at hT

/-- Witness for `C5_theorem` at the idle controller state. -/
theorem C5_theorem_witness :
    (handle_latency_finished false 0 ExitStatus.NormalExit
      idleCtrl).results_text = msgNoReadings ∧
    (handle_latency_finished false 7 ExitStatus.CrashExit
      idleCtrl).results_text = msgStopped ∧
    ((handle_latency_finished false 7 ExitStatus.NormalExit
      idleCtrl).results_text = msgFailed 7 ∧ msgFailed 7 ≠ msgStopped) :=
  ⟨C5_theorem.1 idleCtrl rfl, C5_theorem.2.1 idleCtrl 7 rfl,
    C5_theorem.2.2 idleCtrl 7 rfl (by decide)⟩

/-! ## Claim C6 -/

/-- Claim C6: binary resolution order and not-found behaviour
(lines 132-145). `shutil.which("jack_delay")` is consulted first and
its result used when it resolves; only otherwise is
`shutil.which("jack_iodelay")` used; when neither resolves, nothing is
spawned, the error text is shown, Run is re-enabled, Stop disabled and
the process reference cleared (Idle state). -/
theorem C6_theorem :
    (∀ (env : StartEnv) (st : Ctrl) (p : String),
      st.latency_process = none → env.which "jack_delay" = some p →
      (run_latency_test env st).2 = some p) ∧
    (∀ (env : StartEnv) (st : Ctrl) (q : String),
      st.latency_process = none → env.which "jack_delay" = none →
      env.which "jack_iodelay" = some q →
      (run_latency_test env st).2 = some q) ∧
    (∀ (env : StartEnv) (st : Ctrl),
      st.latency_process = none → env.which "jack_delay" = none →
      env.which "jack_iodelay" = none →
      (run_latency_test env st).2 = none ∧
      (run_latency_test env st).1.latency_process = none ∧
      (run_latency_test env st).1.run_enabled = true ∧
      (run_latency_test env st).1.stop_enabled = false ∧
      (run_latency_test env st).1.results_text = notFoundMsg) := by
  refine ⟨?_, ?_, ?_⟩
  · intro env st p hp hw
    unfold run_latency_test
    simp [hp, hw]
  · intro env st q hp hw1 hw2
    unfold run_latency_test
    simp [hp, hw1, hw2]
  · intro env st hp hw1 hw2
    unfold run_latency_test
    simp [hp, hw1, hw2]

/-- Witness for `C6_theorem` at concrete environments. -/
theorem C6_theorem_witness :
    (run_latency_test
      { which := fun s => if s = "jack_delay" then some "/usr/bin/jack_delay"
          else none, raw_checked := false } idleCtrl).2 =
        some "/usr/bin/jack_delay" ∧
    (run_latency_test
      { which := fun s => if s = "jack_iodelay" then some "/usr/bin/jack_iodelay"
          else none, raw_checked := false } idleCtrl).2 =
        some "/usr/bin/jack_iodelay" ∧
    ((run_latency_test { which := fun _ => none, raw_checked := false }
        idleCtrl).2 = none ∧
      (run_latency_test { which := fun _ => none, raw_checked := false }
        idleCtrl).1.latency_process = none ∧
      (run_latency_test { which := fun _ => none, raw_checked := false }
        idleCtrl).1.run_enabled = true ∧
      (run_latency_test { which := fun _ => none, raw_checked := false }
        idleCtrl).1.stop_enabled = false ∧
      (run_latency_test { which := fun _ => none, raw_checked := false }
        idleCtrl).1.results_text = notFoundMsg) :=
  ⟨C6_theorem.1 _ idleCtrl "/usr/bin/jack_delay" rfl rfl,
    C6_theorem.2.1 _ idleCtrl "/usr/bin/jack_iodelay" rfl rfl rfl,
    C6_theorem.2.2 _ idleCtrl rfl rfl rfl⟩

/-! ## Claim C7 -/

/-- Claim C7: Raw-mode invariant. With the raw checkbox on for every
delivery, each chunk is appended verbatim to the display (when a
process reference exists; the handler returns early otherwise, line
156), no connection-signal detection happens (the waiting flag is
untouched) and the sample list never changes, regardless of how many
pattern-matching lines are fed (lines 161-165). -/
theorem C7_theorem (st : Ctrl) (chunks : List (List Char)) :
    (feedOutputs true st chunks).latency_values = st.latency_values ∧
    (feedOutputs true st chunks).latency_waiting = st.latency_waiting ∧
    (feedOutputs true st chunks).results_text =
      st.results_text ++
        (match st.latency_process with
          | some _ => chunks.flatten
          | none => []) := by
  induction chunks generalizing st with
  | nil =>
    rcases st.latency_process with _ | p <;> simp [feedOutputs]
  | cons c cs ih =>
    have step : feedOutputs true st (c :: cs) =
        feedOutputs true (handle_latency_output true st c) cs := rfl
    rw [step]
    rcases hp : st.latency_process with _ | p
    · have hst : handle_latency_output true st c = st := by
        unfold handle_latency_output
        rw [hp]
      rw [hst]
      obtain ⟨h1, h2, h3⟩ := ih st
      simp only [hp] at h3 ⊢
      exact ⟨h1, h2, by simpa using h3⟩
    · have hst : handle_latency_output true st c =
          { st with results_text := st.results_text ++ c } := by
        unfold handle_latency_output
        rw [hp]
        simp [hp]
      rw [hst]
      obtain ⟨h1, h2, h3⟩ := ih { st with results_text := st.results_text ++ c }
      refine ⟨h1, h2, ?_⟩
      rw [h3]
      simp [hp]

/-! ## Claim C8 -/

/-- Claim C8: `stop_latency_test` is idempotent and never
double-reports (lines 193-206). A second call right after a first one
changes nothing and issues no termination request — after the first
call the process is no longer running, so the guard of line 198 fails;
and a call made after the process already exited on its own (the
finished handler cleared the reference, line 245) issues no request and
appends no text. -/
theorem C8_theorem :
    (∀ (e1 e2 : StopEnv) (st : Ctrl),
      stop_latency_test e2 (stop_latency_test e1 st).1 =
        ((stop_latency_test e1 st).1, [])) ∧
    (∀ (e : StopEnv) (st : Ctrl), st.latency_process = none →
      (stop_latency_test e st).2 = [] ∧
      (stop_latency_test e st).1.results_text = st.results_text) := by
  constructor
  · intro e1 e2 st
    obtain ⟨proc, vals, w, txt, run, stop, timer⟩ := st
    cases timer <;> rcases proc with _ | s <;> try rcases s with _ | _ <;>
      simp [stop_latency_test]
    all_goals simp [stop_latency_test]
  · intro e st hp
    obtain ⟨proc, vals, w, txt, run, stop, timer⟩ := st
    cases hp
    cases timer <;> simp [stop_latency_test]

/-- Witness for `C8_theorem`'s second conjunct at the idle state. -/
theorem C8_theorem_witness :
    (stop_latency_test { graceful := true } idleCtrl).2 = [] ∧
    (stop_latency_test { graceful := true } idleCtrl).1.results_text =
      idleCtrl.results_text :=
  C8_theorem.2 { graceful := true } idleCtrl rfl

/-! ## Claim C10 -/

/-- Claim C10: the session mode is not latched — `handle_latency_output`
(line 161) and `handle_latency_finished` (line 213) read the raw-output
checkbox at the moment each event is handled (`raw` is the live
checkbox value in this model). In particular, when the sample list is
non-empty but the checkbox is checked at process exit, the report is
the raw-mode stopped message and no average is computed; and an output
event with the checkbox checked is appended verbatim with no sample
extraction even if earlier events ran in Average mode. -/
theorem C10_theorem :
    (∀ (ec : ℤ) (es : ExitStatus) (st : Ctrl), st.latency_values ≠ [] →
      (handle_latency_finished true ec es st).results_text = msgStopped) ∧
    (∀ (st : Ctrl) (d : List Char) (p : QPState), st.latency_process = some p →
      (handle_latency_output true st d).results_text = st.results_text ++ d ∧
      (handle_latency_output true st d).latency_values = st.latency_values) := by
  constructor
  · intro ec es st hv
    unfold handle_latency_finished
    simp
  · intro st d p hp
    unfold handle_latency_output
    rw [hp]
    simp

/-- Witness for `C10_theorem`: a finished session holding one sample
with the checkbox checked reports the stopped message; an output event
in the same mode appends verbatim and leaves the samples alone. -/
theorem C10_theorem_witness :
    (handle_latency_finished true 0 ExitStatus.NormalExit
      { idleCtrl with
          latency_values := [(64, 64)]
          latency_process := some QPState.Running }).results_text = msgStopped ∧
    ((handle_latency_output true
        { idleCtrl with
            latency_values := [(64, 64)]
            latency_process := some QPState.Running }
        " 1.0 frames 2.0 ms\n".toList).results_text =
      "Ready to test.".toList ++ " 1.0 frames 2.0 ms\n".toList ∧
    (handle_latency_output true
        { idleCtrl with
            latency_values := [(64, 64)]
            latency_process := some QPState.Running }
        " 1.0 frames 2.0 ms\n".toList).latency_values = [(64, 64)]) :=
  ⟨C10_theorem.1 0 ExitStatus.NormalExit _ (by decide),
    C10_theorem.2 _ " 1.0 frames 2.0 ms\n".toList QPState.Running rfl⟩

/-! ## Lemmas: the JACK graph operations -/

theorem client_connect_cases (g : JackGraph) (a b : String) :
    (client_connect g a b).1 = g ∨
      (client_connect g a b).1 =
        { g with connections := (a, b) :: g.connections } := by
  unfold client_connect
  split
  · exact Or.inl rfl
  · exact Or.inr rfl

theorem make_connection_cases (g : JackGraph) (out inp : String) :
    ((make_connection g out inp).1 = g ∨
      (make_connection g out inp).1 =
        { g with connections := (out, inp) :: g.connections }) ∧
    ((make_connection g out inp).2 = [] ∨
      (make_connection g out inp).2 = [(out, inp)]) := by
  unfold make_connection
  split
  · exact ⟨Or.inl rfl, Or.inl rfl⟩
  · exact ⟨client_connect_cases g out inp, Or.inr rfl⟩

theorem get_all_connections_mem (g : JackGraph) (a b : String) :
    a ∈ get_all_connections g b ↔
      (b, a) ∈ g.connections ∨ (a, b) ∈ g.connections := by
  unfold get_all_connections
  simp only [List.mem_append, List.mem_map, List.mem_filter]
  constructor
  · rintro (⟨⟨x, y⟩, ⟨hmem, hx⟩, rfl⟩ | ⟨⟨x, y⟩, ⟨hmem, hy⟩, rfl⟩)
    · simp only [decide_eq_true_eq] at hx
      subst hx
      exact Or.inl hmem
    · simp only [decide_eq_true_eq] at hy
      subst hy
      exact Or.inr hmem
  · rintro (h | h)
    · exact Or.inl ⟨(b, a), ⟨h, by simp⟩, rfl⟩
    · exact Or.inr ⟨(a, b), ⟨h, by simp⟩, rfl⟩

theorem make_connection_ensures (g : JackGraph) (out inp : String)
    (hq : g.query_fails out = false) (hc : g.connect_fails out inp = false) :
    inp ∈ get_all_connections (make_connection g out inp).1 out := by
  unfold make_connection
  split
  next hcond =>
    rw [Bool.and_eq_true, Bool.not_eq_true', hq] at hcond
    exact List.elem_iff.mp hcond.2
  next hcond =>
    rw [Bool.and_eq_true] at hcond
    push_neg at hcond
    have hnc : ¬ inp ∈ get_all_connections g out := by
      intro hmem
      have h1 : (!g.query_fails out) = true := by rw [hq]; rfl
      exact hcond h1 (List.elem_iff.mpr hmem)
    unfold client_connect
    split
    next hfail =>
      rw [Bool.or_eq_true] at hfail
      rcases hfail with hcf | hin
      · rw [hc] at hcf
        cases hcf
      · exact absurd ((get_all_connections_mem g inp out).mpr
          (Or.inl (by simpa using hin))) hnc
    next =>
      exact (get_all_connections_mem _ inp out).mpr (Or.inl (by simp))

theorem make_connection_skip (g : JackGraph) (out inp : String)
    (hq : g.query_fails out = false)
    (hmem : inp ∈ get_all_connections g out) :
    make_connection g out inp = (g, []) := by
  unfold make_connection
  rw [if_pos]
  rw [hq]
  simpa using List.elem_iff.mpr hmem

theorem graphEvolves_refl (g : JackGraph) : GraphEvolves g g :=
  ⟨rfl, rfl, rfl, rfl, rfl, fun _ he => he⟩

theorem graphEvolves_trans (g g2 g3 : JackGraph) (h1 : GraphEvolves g g2)
    (h2 : GraphEvolves g2 g3) : GraphEvolves g g3 := by
  obtain ⟨p1, q1, c1, i1, o1, m1⟩ := h1
  obtain ⟨p2, q2, c2, i2, o2, m2⟩ := h2
  exact ⟨p2.trans p1, q2.trans q1, c2.trans c1, i2.trans i1, o2.trans o1,
    fun e he => m2 e (m1 e he)⟩

theorem make_connection_evolves (g : JackGraph) (out inp : String) :
    GraphEvolves g (make_connection g out inp).1 := by
  rcases (make_connection_cases g out inp).1 with h | h <;> rw [h]
  · exact graphEvolves_refl g
  · exact ⟨rfl, rfl, rfl, rfl, rfl, fun e he => by simp [he]⟩

theorem attempt_evolves (g : JackGraph) (i o : Option String) :
    GraphEvolves g (attempt_auto_connection g i o).1 := by
  rcases i with _ | inp <;> rcases o with _ | outp
  · exact graphEvolves_refl g
  · exact graphEvolves_refl g
  · exact graphEvolves_refl g
  · unfold attempt_auto_connection
    cases h1 : g.get_ports_input_fails with
    | true => exact graphEvolves_refl g
    | false =>
      simp only [Bool.false_eq_true, if_false]
      cases ha1 : (get_ports_input_audio g).any fun p => p.name = outp with
      | false =>
        simp only [Bool.false_eq_true, if_false]
        cases h2 : g.get_ports_output_fails with
        | true => exact graphEvolves_refl g
        | false =>
          simp only [Bool.false_eq_true, if_false]
          cases ha2 : (get_ports_output_audio g).any fun p => p.name = inp with
          | false => exact graphEvolves_refl g
          | true =>
            simp only [if_true]
            exact make_connection_evolves g inp "jack_delay:in"
      | true =>
        simp only [if_true]
        cases h2 : g.get_ports_output_fails with
        | true => exact make_connection_evolves g "jack_delay:out" outp
        | false =>
          simp only [Bool.false_eq_true, if_false]
          cases ha2 : (get_ports_output_audio
              (make_connection g "jack_delay:out" outp).1).any
              fun p => p.name = inp with
          | false =>
            exact make_connection_evolves g "jack_delay:out" outp
          | true =>
            simp only [if_true]
            exact graphEvolves_trans _ _ _
              (make_connection_evolves g "jack_delay:out" outp)
              (make_connection_evolves _ inp "jack_delay:in")

theorem mem_get_all_of_evolves (g g2 : JackGraph) (h : GraphEvolves g g2)
    (a b : String) (hm : a ∈ get_all_connections g b) :
    a ∈ get_all_connections g2 b := by
  rw [get_all_connections_mem] at hm ⊢
  rcases hm with hh | hh
  · exact Or.inl (h.2.2.2.2.2 _ hh)
  · exact Or.inr (h.2.2.2.2.2 _ hh)

theorem get_ports_input_audio_of_evolves (g g2 : JackGraph)
    (h : GraphEvolves g g2) :
    get_ports_input_audio g2 = get_ports_input_audio g := by
  unfold get_ports_input_audio
  rw [h.1]

theorem get_ports_output_audio_of_evolves (g g2 : JackGraph)
    (h : GraphEvolves g g2) :
    get_ports_output_audio g2 = get_ports_output_audio g := by
  unfold get_ports_output_audio
  rw [h.1]

theorem attempt_post_edge1 (g : JackGraph) (inp outp : String)
    (hq : ∀ s, g.query_fails s = false)
    (hcf : ∀ a b, g.connect_fails a b = false)
    (hin : g.get_ports_input_fails = false)
    (hex : ((get_ports_input_audio g).any fun p => p.name = outp) = true) :
    outp ∈ get_all_connections
      (attempt_auto_connection g (some inp) (some outp)).1 "jack_delay:out" := by
  unfold attempt_auto_connection
  rw [hin]
  simp only [Bool.false_eq_true, if_false, hex, if_true]
  have hmemA : outp ∈ get_all_connections
      (make_connection g "jack_delay:out" outp).1 "jack_delay:out" :=
    make_connection_ensures g "jack_delay:out" outp (hq _) (hcf _ _)
  cases h2 : g.get_ports_output_fails with
  | true => simpa using hmemA
  | false =>
    simp only [Bool.false_eq_true, if_false]
    cases ha2 : ((get_ports_output_audio
        (make_connection g "jack_delay:out" outp).1).any
        fun p => p.name = inp) with
    | false => simpa using hmemA
    | true =>
      simp only [if_true]
      exact mem_get_all_of_evolves _ _
        (make_connection_evolves _ inp "jack_delay:in") _ _ hmemA

theorem attempt_post_edge2 (g : JackGraph) (inp outp : String)
    (hq : ∀ s, g.query_fails s = false)
    (hcf : ∀ a b, g.connect_fails a b = false)
    (hin : g.get_ports_input_fails = false)
    (hout : g.get_ports_output_fails = false)
    (hex2 : ((get_ports_output_audio g).any fun p => p.name = inp) = true) :
    "jack_delay:in" ∈ get_all_connections
      (attempt_auto_connection g (some inp) (some outp)).1 inp := by
  unfold attempt_auto_connection
  rw [hin]
  simp only [Bool.false_eq_true, if_false]
  cases ha1 : ((get_ports_input_audio g).any fun p => p.name = outp) with
  | false =>
    simp only [Bool.false_eq_true, if_false, hout]
    rw [show ((get_ports_output_audio g).any fun p => p.name = inp) = true
      from hex2]
    simp only [if_true]
    exact make_connection_ensures g inp "jack_delay:in" (hq _) (hcf _ _)
  | true =>
    simp only [if_true, hout, Bool.false_eq_true, if_false]
    have hevA : GraphEvolves g (make_connection g "jack_delay:out" outp).1 :=
      make_connection_evolves g "jack_delay:out" outp
    rw [get_ports_output_audio_of_evolves _ _ hevA, hex2]
    simp only [if_true]
    exact make_connection_ensures _ inp "jack_delay:in"
      (by rw [hevA.2.1]; exact hq _) (by rw [hevA.2.2.1]; exact hcf _ _)

/-! ## Claim C3 -/

/-- Claim C3, counterexample. The claim asserts idempotence for every
graph state, but when the connections query raises persistently,
`make_connection` "tries the connect anyway" (lines 497-499), so a
second reconciliation with unchanged ports and connections re-issues
both `connect` calls even though the first run's connects succeeded
(first conjunct: both edges were created by the first run). -/
theorem C3_counterexample :
    (attempt_auto_connection gQueryFail (some "system:capture_1")
        (some "system:playback_1")).1.connections =
      [("system:capture_1", "jack_delay:in"),
        ("jack_delay:out", "system:playback_1")] ∧
    (attempt_auto_connection
        (attempt_auto_connection gQueryFail (some "system:capture_1")
          (some "system:playback_1")).1
        (some "system:capture_1") (some "system:playback_1")).2 =
      [("jack_delay:out", "system:playback_1"),
        ("system:capture_1", "jack_delay:in")] := by
  constructor
  · rfl
  · rfl

/-- Claim C3 as amended: when the connections queries do not fail (and
connects do not fail, which the claim's "first call's connects having
succeeded" presupposes), running the auto-connection attempt twice in a
row with unchanged inputs issues zero `connect` calls on the second
run: an edge already listed among the source port's connections is
skipped (lines 493-496). -/
theorem C3_theorem (g : JackGraph) (i o : Option String)
    (hq : ∀ s, g.query_fails s = false)
    (hcf : ∀ a b, g.connect_fails a b = false) :
    (attempt_auto_connection (attempt_auto_connection g i o).1 i o).2 = [] := by
  rcases i with _ | inp <;> rcases o with _ | outp
  · rfl
  · rfl
  · rfl
  · have hev := attempt_evolves g (some inp) (some outp)
    conv_lhs => rw [attempt_auto_connection]
    cases h1 : g.get_ports_input_fails with
    | true =>
      rw [hev.2.2.2.1, h1]
      rfl
    | false =>
      rw [hev.2.2.2.1, h1]
      simp only [Bool.false_eq_true, if_false]
      rw [get_ports_input_audio_of_evolves _ _ hev]
      cases ha1 : ((get_ports_input_audio g).any fun p => p.name = outp) with
      | true =>
        simp only [if_true]
        have hmem1 := attempt_post_edge1 g inp outp hq hcf h1 ha1
        have hskip1 := make_connection_skip _ "jack_delay:out" outp
          (by rw [hev.2.1]; exact hq _) hmem1
        rw [hskip1]
        rw [hev.2.2.2.2.1]
        cases h2 : g.get_ports_output_fails with
        | true => rfl
        | false =>
          simp only [Bool.false_eq_true, if_false]
          rw [get_ports_output_audio_of_evolves _ _ hev]
          cases ha2 : ((get_ports_output_audio g).any fun p => p.name = inp) with
          | true =>
            simp only [if_true]
            have hmem2 := attempt_post_edge2 g inp outp hq hcf h1 h2 ha2
            have hskip2 := make_connection_skip _ inp "jack_delay:in"
              (by rw [hev.2.1]; exact hq _) hmem2
            rw [hskip2]
            rfl
          | false => rfl
      | false =>
        simp only [Bool.false_eq_true, if_false]
        rw [hev.2.2.2.2.1]
        cases h2 : g.get_ports_output_fails with
        | true => rfl
        | false =>
          simp only [Bool.false_eq_true, if_false]
          rw [get_ports_output_audio_of_evolves _ _ hev]
          cases ha2 : ((get_ports_output_audio g).any fun p => p.name = inp) with
          | true =>
            simp only [if_true]
            have hmem2 := attempt_post_edge2 g inp outp hq hcf h1 h2 ha2
            have hskip2 := make_connection_skip _ inp "jack_delay:in"
              (by rw [hev.2.1]; exact hq _) hmem2
            rw [hskip2]
            rfl
          | false => rfl

/-- Witness for `C3_theorem`: the healthy concrete graph, both ports
selected. -/
theorem C3_theorem_witness :
    (attempt_auto_connection
      (attempt_auto_connection gEdgesOK (some "system:capture_1")
        (some "system:playback_1")).1
      (some "system:capture_1") (some "system:playback_1")).2 = [] :=
  C3_theorem gEdgesOK (some "system:capture_1") (some "system:playback_1")
    (fun _ => rfl) (fun _ _ => rfl)

/-! ## Claim C4 -/

/-- Claim C4, counterexample. The claim asserts that a query failure on
one edge does not abort reconciliation of the other edge, but both
edges live in the single `try` block of lines 461-484: when the
live-port-list query for the first edge (line 464) raises, the
exception lands in the outer handler and the second edge is never
attempted. `gPortsFail` differs from the healthy `gEdgesOK` only in
that the first `get_ports` call raises, yet the attempt issues no
`connect` call at all — the second edge's connect, issued on
`gEdgesOK`, is gone. -/
theorem C4_counterexample :
    gPortsFail = { gEdgesOK with get_ports_input_fails := true } ∧
    (attempt_auto_connection gPortsFail (some "system:capture_1")
        (some "system:playback_1")).2 = [] ∧
    (attempt_auto_connection gEdgesOK (some "system:capture_1")
        (some "system:playback_1")).2 =
      [("jack_delay:out", "system:playback_1"),
        ("system:capture_1", "jack_delay:in")] :=
  ⟨rfl, rfl, rfl⟩

/-- Claim C4 as amended. Reconciliation preconditions and error
handling of `_attempt_latency_auto_connection` (lines 443-506):
(1) if either selected alias is unset, the attempt is a no-op with no
error; (2) each edge's target must be present in the live port list,
and when neither target exists nothing is connected; (3) failures of
the connections query or of `connect` itself are swallowed inside
`make_connection` per edge, so, whatever those oracles say, the second
edge's connect call is still issued when its target exists and it is
not already connected (edge-level errors on the first edge do not
abort the second); but (4) a failure of the live-port-list query of
line 464 aborts the entire attempt — both edges — without issuing any
connect call and without touching the graph, logged and swallowed. -/
theorem C4_theorem :
    (∀ (g : JackGraph) (o : Option String),
      attempt_auto_connection g none o = (g, []) ∧
      ∀ i, attempt_auto_connection g (some i) none = (g, [])) ∧
    (∀ (g : JackGraph) (i o : String),
      g.get_ports_input_fails = false → g.get_ports_output_fails = false →
      ((get_ports_input_audio g).any fun p => p.name = o) = false →
      ((get_ports_output_audio g).any fun p => p.name = i) = false →
      attempt_auto_connection g (some i) (some o) = (g, [])) ∧
    (∀ (g : JackGraph) (i o : String),
      g.get_ports_input_fails = false → g.get_ports_output_fails = false →
      ((get_ports_output_audio g).any fun p => p.name = i) = true →
      i ≠ "jack_delay:out" → i ≠ o →
      (g.query_fails i = true ∨
        ¬ "jack_delay:in" ∈ get_all_connections g i) →
      (i, "jack_delay:in") ∈
        (attempt_auto_connection g (some i) (some o)).2) ∧
    (∀ (g : JackGraph) (i o : String), g.get_ports_input_fails = true →
      attempt_auto_connection g (some i) (some o) = (g, [])) := by
  refine ⟨?_, ?_, ?_, ?_⟩
  · intro g o
    exact ⟨rfl, fun i => rfl⟩
  · intro g i o h1 h2 ha1 ha2
    rw [attempt_auto_connection, h1, ha1, h2]
    simp only [Bool.false_eq_true, if_false]
    rw [ha2]
    simp only [Bool.false_eq_true, if_false]
    rfl
  · intro g i o h1 h2 ha2 hne1 hne2 hq
    rw [attempt_auto_connection, h1]
    simp only [Bool.false_eq_true, if_false, h2]
    cases ha1 : ((get_ports_input_audio g).any fun p => p.name = o) with
    | false =>
      simp only [Bool.false_eq_true, if_false]
      rw [ha2]
      simp only [if_true]
      rcases (make_connection_cases g i "jack_delay:in").2 with hc | hc
      · exfalso
        unfold make_connection at hc
        rw [if_neg] at hc
        · simp at hc
        · intro hcond
          rw [Bool.and_eq_true, Bool.not_eq_true'] at hcond
          rcases hq with hqt | hqm
          · rw [hcond.1] at hqt
            cases hqt
          · exact hqm (List.elem_iff.mp hcond.2)
      · rw [hc]
        simp
    | true =>
      simp only [if_true]
      have hevA : GraphEvolves g (make_connection g "jack_delay:out" o).1 :=
        make_connection_evolves g "jack_delay:out" o
      have hcases := (make_connection_cases g "jack_delay:out" o).1
      set gA := (make_connection g "jack_delay:out" o).1 with hgA
      rw [get_ports_output_audio_of_evolves _ _ hevA, ha2]
      simp only [if_true]
      rcases (make_connection_cases gA i "jack_delay:in").2 with hc | hc
      · exfalso
        unfold make_connection at hc
        rw [if_neg] at hc
        · simp at hc
        · intro hcond
          rw [Bool.and_eq_true, Bool.not_eq_true'] at hcond
          rcases hq with hqt | hqm
          · rw [hevA.2.1] at hcond
            rw [hcond.1] at hqt
            cases hqt
          · refine hqm ?_
            have hmem := List.elem_iff.mp hcond.2
            rw [get_all_connections_mem] at hmem ⊢
            rcases hcases with hg | hg
            · rw [hg] at hmem
              exact hmem
            · rw [hg] at hmem
              simp only [List.mem_cons] at hmem
              rcases hmem with (h | h) | (h | h)
              · exact absurd (congrArg Prod.fst h) (by simpa using hne1)
              · exact Or.inl h
              · exact absurd (congrArg Prod.snd h) (by simpa using hne2)
              · exact Or.inr h
      · rw [hc]
        simp
  · intro g i o h1
    rw [attempt_auto_connection, h1]
    rfl

/-- Witness for C4: on the healthy graph the capture-to-tool edge is
issued even though nothing forbids the playback edge, and an input-side
`get_ports` failure aborts the whole attempt. -/
theorem C4_theorem_witness :
    ("system:capture_1", "jack_delay:in") ∈
      (attempt_auto_connection gEdgesOK (some "system:capture_1")
        (some "system:playback_1")).2 ∧
    attempt_auto_connection gPortsFail (some "system:capture_1")
      (some "system:playback_1") = (gPortsFail, []) :=
  ⟨C4_theorem.2.2.1 gEdgesOK "system:capture_1" "system:playback_1"
      (by decide) (by decide) (by decide) (by decide) (by decide)
      (Or.inr (by decide)),
   C4_theorem.2.2.2 gPortsFail "system:capture_1" "system:playback_1" rfl⟩


/-! ## Claim C9 -/

theorem make_connection_mem_call (g : JackGraph) (out inp : String)
    (c : String × String) (hc : c ∈ (make_connection g out inp).2) :
    c = (out, inp) := by
  rcases (make_connection_cases g out inp).2 with h | h
  · rw [h] at hc
    simp at hc
  · rw [h] at hc
    simpa using hc

theorem attempt_calls_shape (g : JackGraph) (i o : String) (c : String × String)
    (hc : c ∈ (attempt_auto_connection g (some i) (some o)).2) :
    c = ("jack_delay:out", o) ∨ c = (i, "jack_delay:in") := by
  rw [attempt_auto_connection] at hc
  cases h1 : g.get_ports_input_fails with
  | true =>
    rw [h1] at hc
    simp at hc
  | false =>
    rw [h1] at hc
    simp only [Bool.false_eq_true, if_false] at hc
    cases ha1 : ((get_ports_input_audio g).any fun p => p.name = o) with
    | false =>
      rw [ha1] at hc
      simp only [Bool.false_eq_true, if_false] at hc
      cases h2 : g.get_ports_output_fails with
      | true =>
        rw [h2] at hc
        simp at hc
      | false =>
        rw [h2] at hc
        simp only [Bool.false_eq_true, if_false, List.nil_append] at hc
        cases ha2 : ((get_ports_output_audio g).any fun p => p.name = i) with
        | false =>
          rw [ha2] at hc
          simp at hc
        | true =>
          rw [ha2] at hc
          simp only [if_true] at hc
          exact Or.inr (make_connection_mem_call _ _ _ _ hc)
    | true =>
      rw [ha1] at hc
      simp only [if_true] at hc
      cases h2 : g.get_ports_output_fails with
      | true =>
        rw [h2] at hc
        simp only [if_true] at hc
        exact Or.inl (make_connection_mem_call _ _ _ _ hc)
      | false =>
        rw [h2] at hc
        simp only [Bool.false_eq_true, if_false] at hc
        rcases List.mem_append.mp hc with h | h
        · exact Or.inl (make_connection_mem_call _ _ _ _ h)
        · cases ha2 : ((get_ports_output_audio
              (make_connection g "jack_delay:out" o).1).any
                fun p => p.name = i) with
          | false =>
            rw [ha2] at h
            simp at h
          | true =>
            rw [ha2] at h
            simp only [if_true] at h
            exact Or.inr (make_connection_mem_call _ _ _ _ h)

/-- Counterexample to C9 as stated: the registration dispatch keys only
on the registered port name, never on which binary was launched, and
`jack_iodelay` — the same measurement tool under its jack-example-tools
name — registers its JACK client as `jack_delay`, so its ports appear
as `jack_delay:in` / `jack_delay:out`. Registrations under exactly
those names do schedule the auto-connection attempt, and on a healthy
graph the attempt issues connect calls touching both tool ports, so
launching the fallback does trigger reconciliation and its ports do get
connected. -/
theorem C9_counterexample :
    on_port_registered true "jack_delay:in" true =
      [Scheduled.AttemptAutoConnection] ∧
    on_port_registered true "jack_delay:out" false =
      [Scheduled.AttemptAutoConnection] ∧
    ("jack_delay:out", "system:playback_1") ∈
      (attempt_auto_connection gEdgesOK (some "system:capture_1")
        (some "system:playback_1")).2 ∧
    ("system:capture_1", "jack_delay:in") ∈
      (attempt_auto_connection gEdgesOK (some "system:capture_1")
        (some "system:playback_1")).2 := by
  refine ⟨by decide, by decide, by decide, by decide⟩

/-- C9 (amended): the registration-triggered reconciliation path is
hard-coded to the port names of the primary tool, not to the binary
launched: a port-registration event schedules the auto-connection
attempt exactly when callbacks are enabled and the registered name is
`jack_delay:in` or `jack_delay:out`; every connect call the attempt
issues targets the fixed strings `jack_delay:out` (as source) or
`jack_delay:in` (as destination); and a registration under either
hard-coded name schedules the attempt whatever the port direction —
so the fallback binary, whose ports register under these same names,
triggers reconciliation too. -/
theorem C9_theorem :
    (∀ (en : Bool) (name : String) (isIn : Bool),
      Scheduled.AttemptAutoConnection ∈ on_port_registered en name isIn ↔
        en = true ∧ (name = "jack_delay:in" ∨ name = "jack_delay:out")) ∧
    (∀ (g : JackGraph) (i o : String) (c : String × String),
      c ∈ (attempt_auto_connection g (some i) (some o)).2 →
        c = ("jack_delay:out", o) ∨ c = (i, "jack_delay:in")) ∧
    (∀ isIn : Bool,
      on_port_registered true "jack_delay:in" isIn =
        [Scheduled.AttemptAutoConnection] ∧
      on_port_registered true "jack_delay:out" isIn =
        [Scheduled.AttemptAutoConnection]) := by
  refine ⟨?_, attempt_calls_shape, by decide⟩
  intro en name isIn
  cases en with
  | false => simp [on_port_registered]
  | true =>
    unfold on_port_registered
    simp only [Bool.not_true, Bool.false_eq_true, if_false, List.mem_append]
    constructor
    · intro h
      refine ⟨trivial, ?_⟩
      rcases h with h | h
      · split at h
        next hcond => simpa using hcond
        next => simp at h
      · split at h
        next => simp at h
        next => simp at h
    · rintro ⟨-, h⟩
      left
      have hb : (name = "jack_delay:in" || name = "jack_delay:out") = true := by
        simp [h]
      rw [hb]
      simp

/-- Witness for C9: registering `jack_delay:in` schedules the attempt,
and on the healthy graph the playback edge issued is the hard-coded
pair. -/
theorem C9_theorem_witness :
    (Scheduled.AttemptAutoConnection ∈ on_port_registered true "jack_delay:in" true ↔
      true = true ∧
        ("jack_delay:in" = "jack_delay:in" ∨ "jack_delay:in" = "jack_delay:out")) ∧
    (("jack_delay:out", "system:playback_1") = ("jack_delay:out", "system:playback_1") ∨
      ("jack_delay:out", "system:playback_1") = ("system:capture_1", "jack_delay:in")) :=
  ⟨C9_theorem.1 true "jack_delay:in" true,
   C9_theorem.2.1 gEdgesOK "system:capture_1" "system:playback_1"
     ("jack_delay:out", "system:playback_1") (by decide)⟩
